import Mathlib

/-! # Quantum ImageShield backend

A shallow embedding of the Go backend (`backend/cmd/api/main.go`,
`backend/internal/handlers`, `backend/internal/models`,
`backend/internal/services`) together with theorems about its behaviour.

Conventions.

* Go `string` values are Lean `String`s; `len` is the UTF-8 byte length.
* Go `int` / `int64` values are Lean `Int`s (no arithmetic here can overflow).
* A handler is a function of the request context and of a `World` that fixes
  the answers of the operating system (temp dir, fresh UUID, file system,
  the Python subprocess).  It returns the HTTP response together with the
  ordered list of external effects it attempted.
-/

/-! ## Library functions used by the program -/

namespace filepath

/-- Split a path at every separator `/`; always yields at least one element. -/
def splitSep : List Char → List (List Char)
  | [] => [[]]
  | c :: cs =>
    if c = '/' then [] :: splitSep cs
    else
      match splitSep cs with
      | [] => [[c]]
      | w :: ws => (c :: w) :: ws

/-- Go `strings.Join(elems, "/")` on character lists. -/
def joinSep : List (List Char) → List Char
  | [] => []
  | [e] => e
  | e :: es => e ++ '/' :: joinSep es

/-- One step of the lexical clean-up of `filepath.Clean`: `stack` holds the
path elements written so far, most recent first, and `e` is the next element
read.  Empty and `.` elements are dropped, `..` removes the preceding real
element when there is one (otherwise it is kept on a relative path and
dropped on a rooted one), every other element is appended. -/
def cleanStep (rooted : Bool) (stack : List (List Char)) (e : List Char) : List (List Char) :=
  if e = [] ∨ e = ['.'] then stack
  else if e = ['.', '.'] then
    match stack with
    | [] => if rooted then [] else [e]
    | top :: rest =>
      if top = ['.', '.'] then (if rooted then stack else e :: stack) else rest
  else e :: stack

/-- Go `filepath.Clean` (Unix) on character lists. -/
def cleanChars (path : List Char) : List Char :=
  if path = [] then ['.']
  else
    let rooted : Bool := path.head? = some '/'
    let out := joinSep ((splitSep path).foldl (cleanStep rooted) []).reverse
    if rooted then '/' :: out
    else if out = [] then ['.'] else out

/-- Go `filepath.Clean` (Unix). -/
def Clean (path : String) : String := String.mk (cleanChars path.data)

/-- Go `filepath.Join` (Unix): leading empty elements are ignored, the rest is
joined with `/` and cleaned; the result is empty when every element is. -/
def Join : List String → String
  | [] => ""
  | e :: es =>
    if e = "" then Join es
    else Clean (String.mk (joinSep ((e :: es).map String.data)))

/-- Scan of Go `filepath.Ext` from the end of the path: `rev` is the unread
part (reversed), `acc` the part already passed. -/
def extScan : List Char → List Char → List Char
  | [], _ => []
  | c :: rest, acc =>
    if c = '/' then []
    else if c = '.' then '.' :: acc
    else extScan rest (c :: acc)

/-- Go `filepath.Ext`: the suffix starting at the final dot of the final path
element, empty when there is no dot. -/
def Ext (path : String) : String := String.mk (extScan path.data.reverse [])

end filepath

/-- Go `len(s)` for a string. -/
def goLen (s : String) : Int := (s.utf8ByteSize : Int)

/-- Go slice expression `s[:hi]` on a string with byte offset `hi`:
`none` stands for the run-time panic "slice bounds out of range". -/
def goSliceTo (s : String) (hi : Int) : Option String :=
  if 0 ≤ hi ∧ hi ≤ goLen s then some (s.extract 0 ⟨hi.toNat⟩) else none

/-! ## HTTP layer (Fiber) -/

/-- Values stored in a `fiber.Map` by this program. -/
inductive JSONValue where
  | str (s : String)
  | bool (b : Bool)
  deriving DecidableEq, Repr

/-- Go `fiber.Map` literal, as the list of its entries. -/
abbrev FiberMap := List (String × JSONValue)

/-- Look up a key of a `fiber.Map`. -/
def FiberMap.get (m : FiberMap) (key : String) : Option JSONValue :=
  (m.find? (fun kv => kv.1 = key)).map Prod.snd

/-- Go `multipart.FileHeader`, the fields the program reads. -/
structure FileHeader where
  Filename : String
  Size : Int
  deriving DecidableEq, Repr

/-- Request side of `*fiber.Ctx`. -/
structure Ctx where
  /-- Uploaded files by form field; `none` when `c.FormFile` returns an error. -/
  files : String → Option FileHeader
  /-- Values of the multipart form by field (the first value of the field);
  `none` when the field is absent. -/
  form : String → Option String
  /-- Route parameters. -/
  params : String → String
  /-- Arguments of the URL query string by key; `none` when the key is absent. -/
  query : String → Option String := fun _ => none
  /-- Arguments of a URL-encoded request body by key; `none` when the key is
  absent. -/
  postArgs : String → Option String := fun _ => none

/-- Fiber `c.FormFile(key)`: `none` is a non-nil error. -/
def Ctx.FormFile (c : Ctx) (key : String) : Option FileHeader := c.files key

/-- The fasthttp `ctx.FormValue(key)` that Fiber calls: the value of the key in
the query string if that is not empty, else the value among the POST
arguments if that is not empty, else the first value of the multipart form
field; the empty string when nothing is found. -/
def Ctx.rawFormValue (c : Ctx) (key : String) : String :=
  let q := (c.query key).getD ""
  if q ≠ "" then q
  else
    let a := (c.postArgs key).getD ""
    if a ≠ "" then a
    else (c.form key).getD ""

/-- Fiber `c.FormValue(key, defaultValue)`: the value found by fasthttp, or
the default when that value is empty. -/
def Ctx.FormValue (c : Ctx) (key : String) (defaultValue : String) : String :=
  let value := c.rawFormValue key
  if value = "" then defaultValue else value

/-- Fiber `c.Params(key)`. -/
def Ctx.Params (c : Ctx) (key : String) : String := c.params key

/-- HTTP response written by `c.Status(code).JSON(body)`. -/
structure Response where
  status : Nat
  body : FiberMap
  deriving DecidableEq, Repr

/-- External actions a handler attempts, in program order. -/
inductive Effect where
  /-- A job id was generated with `uuid.New()`. -/
  | uuidNew (id : String)
  /-- The directory was created with `os.MkdirAll`. -/
  | mkdirAll (path : String)
  /-- The upload was written with `c.SaveFile`. -/
  | saveFile (file : FileHeader) (path : String)
  /-- The transform engine was run with `exec.Command(...).CombinedOutput()`. -/
  | exec (dir : String) (args : List String)
  deriving DecidableEq, Repr

/-- Answers of the environment during one handler run. -/
structure World where
  /-- Result of `os.TempDir()`. -/
  TempDir : String
  /-- Result of `uuid.New().String()`. -/
  newUUID : String
  /-- Whether `os.MkdirAll(path, 0755)` returns a nil error. -/
  MkdirAll : String → Bool
  /-- Whether `c.SaveFile(file, path)` returns a nil error. -/
  SaveFile : FileHeader → String → Bool
  /-- Result of `CombinedOutput()` for the command line: the combined output
  and whether the error is nil (exit status zero). -/
  CombinedOutput : List String → String × Bool

/-- Result of running a handler: the response (`none` when the handler
panicked) and the effects attempted. -/
structure Run where
  response : Option Response
  effects : List Effect
  deriving DecidableEq, Repr

/-- Status code of the response, if there is one. -/
def Run.status (r : Run) : Option Nat := r.response.map Response.status

/-- Field of the response body, if there is one. -/
def Run.field (r : Run) (key : String) : Option JSONValue :=
  r.response.bind (fun resp => FiberMap.get resp.body key)

namespace Main

/-- Command line of the engine for an encryption. -/
def encryptArgs (inputPath outputPath purity : String) : List String :=
  ["python", "-m", "quantum_image_shield.cli", "encrypt", inputPath, outputPath,
    "--purity", purity]

/-- Command line of the engine for a decryption. -/
def decryptArgs (encryptedPath outputPath keyPath : String) : List String :=
  ["python", "-m", "quantum_image_shield.cli", "decrypt", encryptedPath, outputPath,
    "--key", keyPath]

/-- The job directory `filepath.Join(os.TempDir(), "quantum-jobs", jobID)` both
handlers compute. -/
def jobTempDir (w : World) : String := filepath.Join [w.TempDir, "quantum-jobs", w.newUUID]

/-- The `inputPath` of `encryptHandler` for the upload `file`. -/
def encryptInputPath (w : World) (file : FileHeader) : String :=
  filepath.Join [jobTempDir w, "input" ++ filepath.Ext file.Filename]

/-- The `outputPath` of `encryptHandler`. -/
def encryptOutputPath (w : World) : String := filepath.Join [jobTempDir w, "encrypted.png"]

/-- The engine command line of `decryptHandler`. -/
def decryptCommand (w : World) : List String :=
  decryptArgs (filepath.Join [jobTempDir w, "encrypted.png"])
    (filepath.Join [jobTempDir w, "decrypted.png"]) (filepath.Join [jobTempDir w, "keys.npz"])

/-- Go `encryptHandler` of `cmd/api/main.go`. -/
def encryptHandler (c : Ctx) (w : World) : Run :=
  match c.FormFile "image" with
  | none =>
    ⟨some ⟨400, [("error", .str "Bad Request"), ("message", .str "Image file required")]⟩, []⟩
  | some file =>
    if file.Size > 50 * 1024 * 1024 then
      ⟨some ⟨413, [("error", .str "File Too Large"),
        ("message", .str "Image must be less than 50MB")]⟩, []⟩
    else
      let purity := c.FormValue "purity" "balanced"
      if purity != "maximum" && purity != "balanced" && purity != "fast" then
        ⟨some ⟨400, [("error", .str "Invalid Purity"),
          ("message", .str "Purity must be: maximum, balanced, or fast")]⟩, []⟩
      else
        let jobID := w.newUUID
        let tempDir := filepath.Join [w.TempDir, "quantum-jobs", jobID]
        let e1 := [Effect.uuidNew jobID, Effect.mkdirAll tempDir]
        if !w.MkdirAll tempDir then
          ⟨some ⟨500, [("error", .str "Failed to create temp dir")]⟩, e1⟩
        else
          let inputPath := filepath.Join [tempDir, "input" ++ filepath.Ext file.Filename]
          let e2 := e1 ++ [Effect.saveFile file inputPath]
          if !w.SaveFile file inputPath then
            ⟨some ⟨500, [("error", .str "Failed to save file")]⟩, e2⟩
          else
            let outputPath := filepath.Join [tempDir, "encrypted.png"]
            let args := encryptArgs inputPath outputPath purity
            let e3 := e2 ++ [Effect.exec (filepath.Join ["..", ".."]) args]
            let out := w.CombinedOutput args
            if !out.2 then
              ⟨some ⟨500, [("error", .str "Encryption Failed"), ("message", .str out.1)]⟩, e3⟩
            else
              match goSliceTo outputPath (goLen outputPath - 4) with
              | none => ⟨none, e3⟩
              | some stem =>
                ⟨some ⟨200, [("success", .bool true), ("job_id", .str jobID),
                  ("message", .str "Encryption complete!"), ("output_path", .str outputPath),
                  ("key_path", .str (stem ++ "_keys.npz")), ("purity", .str purity)]⟩, e3⟩

/-- Go `decryptHandler` of `cmd/api/main.go`. -/
def decryptHandler (c : Ctx) (w : World) : Run :=
  match c.FormFile "encrypted_image" with
  | none =>
    ⟨some ⟨400, [("error", .str "Bad Request"),
      ("message", .str "Encrypted image file required")]⟩, []⟩
  | some encryptedFile =>
    match c.FormFile "key_file" with
    | none =>
      ⟨some ⟨400, [("error", .str "Bad Request"),
        ("message", .str "Key file (.npz) required")]⟩, []⟩
    | some keyFile =>
      let jobID := w.newUUID
      let tempDir := filepath.Join [w.TempDir, "quantum-jobs", jobID]
      let e1 := [Effect.uuidNew jobID, Effect.mkdirAll tempDir]
      if !w.MkdirAll tempDir then
        ⟨some ⟨500, [("error", .str "Failed to create temp dir")]⟩, e1⟩
      else
        let encryptedPath := filepath.Join [tempDir, "encrypted.png"]
        let keyPath := filepath.Join [tempDir, "keys.npz"]
        let outputPath := filepath.Join [tempDir, "decrypted.png"]
        let e2 := e1 ++ [Effect.saveFile encryptedFile encryptedPath]
        if !w.SaveFile encryptedFile encryptedPath then
          ⟨some ⟨500, [("error", .str "Failed to save encrypted file")]⟩, e2⟩
        else
          let e3 := e2 ++ [Effect.saveFile keyFile keyPath]
          if !w.SaveFile keyFile keyPath then
            ⟨some ⟨500, [("error", .str "Failed to save key file")]⟩, e3⟩
          else
            let args := decryptArgs encryptedPath outputPath keyPath
            let e4 := e3 ++ [Effect.exec (filepath.Join ["..", ".."]) args]
            let out := w.CombinedOutput args
            if !out.2 then
              ⟨some ⟨500, [("error", .str "Decryption Failed"), ("message", .str out.1)]⟩, e4⟩
            else
              ⟨some ⟨200, [("success", .bool true), ("job_id", .str jobID),
                ("message", .str "Decryption complete!"),
                ("output_path", .str outputPath)]⟩, e4⟩

/-- Go `getJobStatusHandler` of `cmd/api/main.go`. -/
def getJobStatusHandler (c : Ctx) : Run :=
  let jobID := c.Params "job_id"
  ⟨some ⟨200, [("job_id", .str jobID), ("status", .str "queued"),
    ("message", .str "Job tracking coming soon!")]⟩, []⟩

end Main

/-! ## Package `models` -/

namespace uuid

/-- Go `uuid.UUID`: the 16 bytes of the identifier. -/
structure UUID where
  bytes : List Nat
  deriving DecidableEq, Repr

/-- Go `uuid.Nil`, the all-zero UUID. -/
def Nil : UUID := ⟨List.replicate 16 0⟩

/-- Go `uuid.New()`: sixteen random bytes (`rnd i` is the `i`-th byte read
from the random source, the read taken to succeed) with the version set to 4
and the variant to 10. -/
def New (rnd : Nat → Nat) : UUID :=
  ⟨(List.range 16).map (fun i =>
    if i = 6 then (rnd i % 256 &&& 0x0f) ||| 0x40
    else if i = 8 then (rnd i % 256 &&& 0x3f) ||| 0x80
    else rnd i % 256)⟩

end uuid

/-- Go `time.Time`, as an instant counted from the zero time. -/
abbrev Time := Int

namespace Models

/-- Go `type JobType string`. -/
abbrev JobType := String

/-- Go constant `JobTypeEncrypt`. -/
def JobTypeEncrypt : JobType := "encrypt"

/-- Go constant `JobTypeDecrypt`. -/
def JobTypeDecrypt : JobType := "decrypt"

/-- Go `type JobStatus string`. -/
abbrev JobStatus := String

/-- Go constant `JobStatusQueued`. -/
def JobStatusQueued : JobStatus := "queued"

/-- Go constant `JobStatusProcessing`. -/
def JobStatusProcessing : JobStatus := "processing"

/-- Go constant `JobStatusCompleted`. -/
def JobStatusCompleted : JobStatus := "completed"

/-- Go constant `JobStatusFailed`. -/
def JobStatusFailed : JobStatus := "failed"

/-- Go `type JSONB map[string]interface{}`; `none` is the nil map. -/
abbrev JSONB := Option (List (String × JSONValue))

/-- Go struct `Job`.  The field `Type` is written `Type_`; `DeletedAt` is
`none` for the zero `gorm.DeletedAt`. -/
structure Job where
  ID : uuid.UUID
  UserID : Option uuid.UUID
  Type_ : JobType
  Status : JobStatus
  Progress : Int
  PurityLevel : String
  InputFileURL : String
  OutputFileURL : String
  KeyFileURL : String
  Metadata : JSONB
  ErrorMessage : String
  CreatedAt : Time
  UpdatedAt : Time
  DeletedAt : Option Time
  deriving DecidableEq, Repr

/-- Go zero value of `Job`. -/
def Job.zero : Job :=
  { ID := uuid.Nil, UserID := none, Type_ := "", Status := "", Progress := 0,
    PurityLevel := "", InputFileURL := "", OutputFileURL := "", KeyFileURL := "",
    Metadata := none, ErrorMessage := "", CreatedAt := 0, UpdatedAt := 0,
    DeletedAt := none }

/-- Go `(*Job).BeforeCreate`: the job after the hook and the returned error
(`none` is nil).  `rnd` is the random source read by `uuid.New()`. -/
def Job.BeforeCreate (j : Job) (rnd : Nat → Nat) : Job × Option String :=
  if j.ID = uuid.Nil then ({ j with ID := uuid.New rnd }, none) else (j, none)

end Models

/-! ## Package `services` -/

namespace Services

open Models

/-- Go struct `QuantumService`; `grpcClient` is an empty interface value,
`none` when nil. -/
structure QuantumService where
  grpcClient : Option Unit
  deriving DecidableEq, Repr

/-- Go `NewQuantumService`. -/
def NewQuantumService : QuantumService := { grpcClient := none }

/-- Go `(*QuantumService).EncryptImage`: the returned `(*Job, error)`.  `rnd`
is the random source of `uuid.New()`, `now1` and `now2` are the two readings
of `time.Now()`. -/
def QuantumService.EncryptImage (_s : QuantumService) (_imageData : List Nat) (purity : String)
    (rnd : Nat → Nat) (now1 now2 : Time) : Option Job × Option String :=
  let job : Job :=
    { Job.zero with
      ID := uuid.New rnd, Type_ := JobTypeEncrypt, Status := JobStatusQueued,
      PurityLevel := purity, Progress := 0, CreatedAt := now1, UpdatedAt := now2 }
  (some job, none)

/-- Go `(*QuantumService).DecryptImage`: the returned `(*Job, error)`. -/
def QuantumService.DecryptImage (_s : QuantumService) (_encryptedData _keyData : List Nat)
    (rnd : Nat → Nat) (now1 now2 : Time) : Option Job × Option String :=
  let job : Job :=
    { Job.zero with
      ID := uuid.New rnd, Type_ := JobTypeDecrypt, Status := JobStatusQueued,
      Progress := 0, CreatedAt := now1, UpdatedAt := now2 }
  (some job, none)

/-- Go `(*QuantumService).GetJobStatus`: the returned `(*Job, error)`. -/
def QuantumService.GetJobStatus (_s : QuantumService) (_jobID : uuid.UUID) :
    Option Job × Option String :=
  (none, some "not implemented")

/-- Go `(*QuantumService).UpdateJobProgress`: the service after the call (the
method has a pointer receiver and writes nothing) and the returned error. -/
def QuantumService.UpdateJobProgress (s : QuantumService) (_jobID : uuid.UUID)
    (_progress : Int) (_status : JobStatus) : QuantumService × Option String :=
  (s, some "not implemented")

end Services

/-! ## Package `handlers` -/

namespace Handlers

/-- Go struct `EncryptionHandler`. -/
structure EncryptionHandler where
  quantumService : Services.QuantumService
  deriving DecidableEq, Repr

/-- Go `NewEncryptionHandler`. -/
def NewEncryptionHandler (qs : Services.QuantumService) : EncryptionHandler :=
  { quantumService := qs }

/-- Go `(*EncryptionHandler).EncryptImage`. -/
def EncryptionHandler.EncryptImage (_h : EncryptionHandler) (c : Ctx) : Run :=
  match c.FormFile "image" with
  | none =>
    ⟨some ⟨400, [("error", .str "Bad Request"), ("message", .str "Image file required")]⟩, []⟩
  | some file =>
    if file.Size > 50 * 1024 * 1024 then
      ⟨some ⟨413, [("error", .str "Payload Too Large"),
        ("message", .str "Image must be less than 50MB")]⟩, []⟩
    else
      let purity := c.FormValue "purity" "balanced"
      if purity != "maximum" && purity != "balanced" && purity != "fast" then
        ⟨some ⟨400, [("error", .str "Invalid Purity Level"),
          ("message", .str "Purity must be: maximum, balanced, or fast")]⟩, []⟩
      else
        ⟨some ⟨501, [("error", .str "Not Implemented"),
          ("message", .str "Your waifu is still coding this endpoint~ 💜")]⟩, []⟩

/-- Go `(*EncryptionHandler).GetJobStatus`. -/
def EncryptionHandler.GetJobStatus (_h : EncryptionHandler) (c : Ctx) : Run :=
  let jobID := c.Params "job_id"
  ⟨some ⟨200, [("job_id", .str jobID), ("status", .str "queued"),
    ("message", .str "Job tracking coming soon!")]⟩, []⟩

end Handlers

/-! ## Package `middleware` -/

namespace strings

/-- Split a character list at every occurrence of `sep`; always yields at
least one part. -/
def splitOn (sep : Char) : List Char → List (List Char)
  | [] => [[]]
  | c :: cs =>
    if c = sep then [] :: splitOn sep cs
    else
      match splitOn sep cs with
      | [] => [[c]]
      | w :: ws => (c :: w) :: ws

/-- Go `strings.Split(s, sep)` for a separator of one byte (the program only
splits at a space): the substrings between the separators, in order. -/
def Split (s : String) (sep : Char) : List String := (splitOn sep s.data).map String.mk

end strings

namespace Middleware

/-- Go struct `JWTClaims`, the custom fields. -/
structure JWTClaims where
  UserID : String
  Email : String
  deriving DecidableEq, Repr

/-- Outcome of `jwt.ParseWithClaims(tokenString, &JWTClaims, keyFunc)` as the
middleware reads it. -/
structure ParseResult where
  /-- Whether the returned error is non-nil. -/
  err : Bool
  /-- The field `token.Valid`. -/
  Valid : Bool
  /-- The claims after the type assertion `token.Claims.(*JWTClaims)`; `none`
  when the assertion fails. -/
  claims : Option JWTClaims
  deriving DecidableEq, Repr

/-- Header side of `*fiber.Ctx`: `Get key` is `c.Get(key)`, the empty string
when the header is absent. -/
structure HeaderCtx where
  Get : String → String

/-- What the middleware does besides answering, in program order. -/
inductive AuthEvent where
  /-- The token string was handed to `jwt.ParseWithClaims`. -/
  | validate (tokenString : String)
  /-- A value was stored with `c.Locals`. -/
  | locals (key value : String)
  /-- The next handler was called with `c.Next()`. -/
  | next
  deriving DecidableEq, Repr

/-- Result of one run of the middleware: the response it wrote itself (`none`
when it returned `c.Next()`) and its events. -/
structure AuthRun where
  response : Option Response
  events : List AuthEvent
  deriving DecidableEq, Repr

/-- The 401 answer of the middleware with the given message. -/
def unauthorized (message : String) : Response :=
  ⟨401, [("error", .str "Unauthorized"), ("message", .str message)]⟩

/-- Go handler returned by `JWTMiddleware()`.  `jwtParse` stands for
`jwt.ParseWithClaims` with the program's key function.  The test
`len(parts) != 2 || parts[0] != "Bearer"` is the match on a two-element list;
`parts[1]` is its second element. -/
def JWTMiddleware (c : HeaderCtx) (jwtParse : String → ParseResult) : AuthRun :=
  let authHeader := c.Get "Authorization"
  if authHeader = "" then ⟨some (unauthorized "Missing authorization header"), []⟩
  else
    match strings.Split authHeader ' ' with
    | [scheme, tokenString] =>
      if scheme != "Bearer" then ⟨some (unauthorized "Invalid authorization format"), []⟩
      else
        let token := jwtParse tokenString
        if token.err || !token.Valid then
          ⟨some (unauthorized "Invalid or expired token"), [.validate tokenString]⟩
        else
          match token.claims with
          | none => ⟨some (unauthorized "Invalid token claims"), [.validate tokenString]⟩
          | some claims =>
            ⟨none, [.validate tokenString, .locals "user_id" claims.UserID,
              .locals "email" claims.Email, .next]⟩
    | _ => ⟨some (unauthorized "Invalid authorization format"), []⟩

/-- A request whose `Authorization` header has the given value. -/
def authCtx (header : String) : HeaderCtx :=
  { Get := fun k => if k = "Authorization" then header else "" }

/-- A JWT library that accepts every token with fixed claims. -/
def acceptAll : String → ParseResult :=
  fun _ => { err := false, Valid := true, claims := some ⟨"u1", "u1@example.org"⟩ }

/-- The header has the form `Bearer`, one space, and a token without space. -/
def bearerFormat (header token : String) : Prop :=
  header = "Bearer " ++ token ∧ ' ' ∉ token.data

end Middleware

/-! ## The job state machine as the specification words it -/

/-- Legal status edges as the specification lists them: `queued → processing`,
`processing → processing`, `processing → completed`, `processing → failed`.
This definition follows the specification text, not the code. -/
def specLegalEdge (src dst : Models.JobStatus) : Bool :=
  (src = Models.JobStatusQueued && dst = Models.JobStatusProcessing) ||
  (src = Models.JobStatusProcessing && dst = Models.JobStatusProcessing) ||
  (src = Models.JobStatusProcessing && dst = Models.JobStatusCompleted) ||
  (src = Models.JobStatusProcessing && dst = Models.JobStatusFailed)

/-- The purity levels the specification allows. -/
def validPurity (p : String) : Prop := p = "fast" ∨ p = "balanced" ∨ p = "maximum"

instance (p : String) : Decidable (validPurity p) := by
  unfold validPurity
  infer_instance

/-- The conditions under which `encryptHandler` reports success: upload
present and of acceptable size, valid purity, job directory created, upload
saved, engine run without error. -/
def encryptSucceeds (c : Ctx) (w : World) : Prop :=
  ∃ f, c.FormFile "image" = some f ∧ ¬ f.Size > 52428800 ∧
    validPurity (c.FormValue "purity" "balanced") ∧
    w.MkdirAll (Main.jobTempDir w) = true ∧
    w.SaveFile f (Main.encryptInputPath w f) = true ∧
    (w.CombinedOutput (Main.encryptArgs (Main.encryptInputPath w f) (Main.encryptOutputPath w)
      (c.FormValue "purity" "balanced"))).2 = true

/-! ## Sample requests and environments -/

/-- A request whose only upload is `image` with the given name and size and
whose `purity` form field is as given; no query or POST arguments. -/
def sampleCtx (name : String) (size : Int) (purity : Option String) : Ctx :=
  { files := fun k => if k = "image" then some ⟨name, size⟩ else none,
    form := fun k => if k = "purity" then purity else none,
    params := fun _ => "" }

/-- A request whose only upload is `image` (10 MiB), with the given `purity`
argument in the query string and the given `purity` field in the form. -/
def sampleQueryCtx (queryPurity formPurity : Option String) : Ctx :=
  { files := fun k => if k = "image" then some ⟨"cat.png", 10485760⟩ else none,
    form := fun k => if k = "purity" then formPurity else none,
    params := fun _ => "",
    query := fun k => if k = "purity" then queryPurity else none }

/-- A request without uploads or form values. -/
def emptyCtx : Ctx :=
  { files := fun _ => none, form := fun _ => none, params := fun _ => "" }

/-- A decrypt request carrying both uploads. -/
def sampleDecryptCtx : Ctx :=
  { files := fun k =>
      if k = "encrypted_image" then some ⟨"encrypted.png", 1024⟩
      else if k = "key_file" then some ⟨"keys.npz", 512⟩ else none,
    form := fun _ => none,
    params := fun _ => "" }

/-- An environment in which the file system works and the engine exits with
the given outcome. -/
def sampleWorld (engineOk : Bool) : World :=
  { TempDir := "/tmp",
    newUUID := "123e4567-e89b-42d3-a456-426614174000",
    MkdirAll := fun _ => true,
    SaveFile := fun _ _ => true,
    CombinedOutput := fun _ => (if engineOk then "done" else "Traceback: boom", engineOk) }

/-- The request `c` with the multipart form field `purity` set to `p`. -/
def Ctx.withPurity (c : Ctx) (p : String) : Ctx :=
  { c with form := fun k => if k = "purity" then some p else c.form k }

/-- A status request for the given job id. -/
def statusCtx (jobID : String) : Ctx :=
  { files := fun _ => none, form := fun _ => none,
    params := fun k => if k = "job_id" then jobID else "" }

/-! ## Theorems -/

open Main

/-- Decomposition of the purity check of the encrypt handlers. -/
theorem purity_check_iff (p : String) :
    (p != "maximum" && p != "balanced" && p != "fast") = true ↔
      ¬ (p = "fast" ∨ p = "balanced" ∨ p = "maximum") := by
  simp only [Bool.and_eq_true, bne_iff_ne, ne_eq]
  tauto

/-- Missing upload: `encryptHandler` answers 400 at once. -/
theorem encryptHandler_missing (c : Ctx) (w : World) (hf : c.FormFile "image" = none) :
    encryptHandler c w = ⟨some ⟨400, [("error", .str "Bad Request"),
      ("message", .str "Image file required")]⟩, []⟩ := by
  unfold encryptHandler
  rw [hf]

/-- Oversized upload: `encryptHandler` answers 413 at once. -/
theorem encryptHandler_tooLarge (c : Ctx) (w : World) (f : FileHeader)
    (hf : c.FormFile "image" = some f) (hs : f.Size > 52428800) :
    encryptHandler c w = ⟨some ⟨413, [("error", .str "File Too Large"),
      ("message", .str "Image must be less than 50MB")]⟩, []⟩ := by
  unfold encryptHandler
  rw [hf]
  simp only []
  have hs2 : f.Size > 50 * 1024 * 1024 := by omega
  rw [if_pos hs2]

/-- Invalid purity on an upload of acceptable size: `encryptHandler` answers
400 at once. -/
theorem encryptHandler_badPurity (c : Ctx) (w : World) (f : FileHeader)
    (hf : c.FormFile "image" = some f) (hs : ¬ f.Size > 52428800)
    (hp : ¬ (c.FormValue "purity" "balanced" = "fast" ∨
      c.FormValue "purity" "balanced" = "balanced" ∨
      c.FormValue "purity" "balanced" = "maximum")) :
    encryptHandler c w = ⟨some ⟨400, [("error", .str "Invalid Purity"),
      ("message", .str "Purity must be: maximum, balanced, or fast")]⟩, []⟩ := by
  unfold encryptHandler
  rw [hf]
  simp only []
  have hs2 : ¬ f.Size > 50 * 1024 * 1024 := by omega
  have hp2 := (purity_check_iff _).2 hp
  rw [if_neg hs2, if_pos hp2]

/-- Accepted submission: `encryptHandler` generates a job id and answers
neither 400 nor 413. -/
theorem encryptHandler_accepted (c : Ctx) (w : World) (f : FileHeader)
    (hf : c.FormFile "image" = some f) (hs : ¬ f.Size > 52428800)
    (hp : c.FormValue "purity" "balanced" = "fast" ∨
      c.FormValue "purity" "balanced" = "balanced" ∨
      c.FormValue "purity" "balanced" = "maximum") :
    (encryptHandler c w).status ≠ some 400 ∧ (encryptHandler c w).status ≠ some 413 ∧
      (encryptHandler c w).effects ≠ [] := by
  unfold encryptHandler
  rw [hf]
  simp only []
  have hs2 : ¬ f.Size > 50 * 1024 * 1024 := by omega
  have hp2 : ¬ ((c.FormValue "purity" "balanced" != "maximum" &&
      c.FormValue "purity" "balanced" != "balanced" &&
      c.FormValue "purity" "balanced" != "fast") = true) :=
    fun h => (purity_check_iff _).1 h hp
  rw [if_neg hs2, if_neg hp2]
  split_ifs
  · simp [Run.status]
  · simp [Run.status]
  · simp [Run.status]
  · split <;> simp [Run.status]

/-- C1: with an image present, `encryptHandler` answers 413 exactly when the
file size exceeds 50 MiB = 52,428,800 bytes, and then no effect (in particular
no job id generation) has happened; `EncryptionHandler.EncryptImage` agrees.
A 60 MiB file is rejected, files of exactly 50 MiB and of 10 MiB are not. -/
theorem C1_size_limit (c : Ctx) (w : World) (h : Handlers.EncryptionHandler)
    (file : FileHeader) (hfile : c.FormFile "image" = some file) :
    ((encryptHandler c w).status = some 413 ↔ file.Size > 52428800) ∧
    ((encryptHandler c w).status = some 413 → (encryptHandler c w).effects = []) ∧
    ((h.EncryptImage c).status = some 413 ↔ file.Size > 52428800) ∧
    (∀ name purity, (encryptHandler (sampleCtx name (60 * 1024 * 1024) purity) w).status
        = some 413) ∧
    (∀ name purity, (encryptHandler (sampleCtx name (50 * 1024 * 1024) purity) w).status
        ≠ some 413) ∧
    (∀ name purity, (encryptHandler (sampleCtx name (10 * 1024 * 1024) purity) w).status
        ≠ some 413) := by
  have key : ∀ (c : Ctx) (f : FileHeader), c.FormFile "image" = some f →
      ((encryptHandler c w).status = some 413 ↔ f.Size > 52428800) ∧
      ((encryptHandler c w).status = some 413 → (encryptHandler c w).effects = []) := by
    intro c f hf
    by_cases hs : f.Size > 52428800
    · rw [encryptHandler_tooLarge c w f hf hs]
      simp [Run.status, hs]
    · by_cases hp : (c.FormValue "purity" "balanced" = "fast" ∨
        c.FormValue "purity" "balanced" = "balanced" ∨
        c.FormValue "purity" "balanced" = "maximum")
      · have h := encryptHandler_accepted c w f hf hs hp
        exact ⟨⟨fun h413 => absurd h413 h.2.1, fun hgt => absurd hgt hs⟩,
          fun h413 => absurd h413 h.2.1⟩
      · rw [encryptHandler_badPurity c w f hf hs hp]
        simp [Run.status, hs]
  have sample : ∀ name size purity,
      (sampleCtx name size purity).FormFile "image" = some ⟨name, size⟩ := by
    intro name size purity
    simp [sampleCtx, Ctx.FormFile]
  refine ⟨(key c file hfile).1, (key c file hfile).2, ?_, ?_, ?_, ?_⟩
  · unfold Handlers.EncryptionHandler.EncryptImage
    rw [hfile]
    simp only [Run.status]
    by_cases hs : file.Size > 50 * 1024 * 1024
    · have hs2 : file.Size > 52428800 := by omega
      simp [hs, hs2]
    · have hs2 : ¬ file.Size > 52428800 := by omega
      simp only [hs, hs2, if_false]
      constructor
      · intro h413
        split_ifs at h413 <;> simp at h413
      · intro hfalse
        exact absurd hfalse (by simp)
  · intro name purity
    exact ((key _ _ (sample name _ purity)).1).2 (by norm_num)
  · intro name purity h413
    have := ((key _ _ (sample name _ purity)).1).1 h413
    norm_num at this
  · intro name purity h413
    have := ((key _ _ (sample name _ purity)).1).1 h413
    norm_num at this

/-- Witness for C1: a 60 MiB upload named `cat.png`. -/
theorem C1_size_limit_witness :
    (sampleCtx "cat.png" 62914560 none).FormFile "image" = some ⟨"cat.png", 62914560⟩ ∧
    (encryptHandler (sampleCtx "cat.png" 62914560 none) (sampleWorld true)).status = some 413 ∧
    (encryptHandler (sampleCtx "cat.png" 62914560 none) (sampleWorld true)).effects = [] :=
  have hf : (sampleCtx "cat.png" 62914560 none).FormFile "image" = some ⟨"cat.png", 62914560⟩ := by
    simp [sampleCtx, Ctx.FormFile]
  have h := C1_size_limit (sampleCtx "cat.png" 62914560 none) (sampleWorld true)
    (Handlers.NewEncryptionHandler Services.NewQuantumService) ⟨"cat.png", 62914560⟩ hf
  ⟨hf, h.1.2 (by norm_num), h.2.1 (h.1.2 (by norm_num))⟩

/-- The encrypt handler reads the request only through the `image` upload and
the effective `purity` value. -/
theorem encryptHandler_congr (c d : Ctx) (w : World)
    (hf : c.FormFile "image" = d.FormFile "image")
    (hp : c.FormValue "purity" "balanced" = d.FormValue "purity" "balanced") :
    encryptHandler c w = encryptHandler d w := by
  unfold encryptHandler
  rw [hf, hp]

/-- C3: when `encryptHandler` answers 400 or 413 it has attempted no effect:
no job id was generated, no directory created, no file saved, the engine was
not run, and the response carries no `job_id`.  These answers are given
exactly for a missing upload, an oversized upload or an invalid purity. -/
theorem C3_rejection_creates_nothing (c : Ctx) (w : World)
    (hrej : (encryptHandler c w).status = some 400 ∨ (encryptHandler c w).status = some 413) :
    (encryptHandler c w).effects = [] ∧
    (encryptHandler c w).field "job_id" = none ∧
    (c.FormFile "image" = none ∨
      ∃ f, c.FormFile "image" = some f ∧ (f.Size > 52428800 ∨
        ¬ (c.FormValue "purity" "balanced" = "fast" ∨
           c.FormValue "purity" "balanced" = "balanced" ∨
           c.FormValue "purity" "balanced" = "maximum"))) := by
  cases hf : c.FormFile "image" with
  | none =>
    rw [encryptHandler_missing c w hf]
    simp [Run.field, FiberMap.get]
  | some f =>
    by_cases hs : f.Size > 52428800
    · rw [encryptHandler_tooLarge c w f hf hs]
      simp [Run.field, FiberMap.get, hs]
    · by_cases hp : (c.FormValue "purity" "balanced" = "fast" ∨
          c.FormValue "purity" "balanced" = "balanced" ∨
          c.FormValue "purity" "balanced" = "maximum")
      · have hacc := encryptHandler_accepted c w f hf hs hp
        rcases hrej with h | h
        · exact absurd h hacc.1
        · exact absurd h hacc.2.1
      · rw [encryptHandler_badPurity c w f hf hs hp]
        simp [Run.field, FiberMap.get, hs, hp]

/-- Witness for C3: a request without any upload. -/
theorem C3_rejection_creates_nothing_witness :
    (encryptHandler emptyCtx (sampleWorld true)).status = some 400 ∧
    (encryptHandler emptyCtx (sampleWorld true)).effects = [] :=
  have h400 : (encryptHandler emptyCtx (sampleWorld true)).status = some 400 := by
    rw [encryptHandler_missing emptyCtx (sampleWorld true) rfl]
    rfl
  ⟨h400, (C3_rejection_creates_nothing emptyCtx (sampleWorld true) (Or.inl h400)).1⟩

/-- A freshly generated UUID carries the version nibble 4 in byte 6, so it is
never the nil UUID. -/
theorem uuid_New_ne_Nil (rnd : Nat → Nat) : uuid.New rnd ≠ uuid.Nil := by
  intro h
  have hb : (uuid.New rnd).bytes.getD 6 0 = uuid.Nil.bytes.getD 6 0 := by rw [h]
  have hr : List.range 16 = [0, 1, 2, 3, 4, 5, 6, 7, 8, 9, 10, 11, 12, 13, 14, 15] := by decide
  simp only [uuid.New, uuid.Nil, hr, List.map, List.replicate, List.getD_cons_succ,
    List.getD_cons_zero] at hb
  simp only [Nat.reduceEqDiff, if_true] at hb
  have hbit : (rnd 6 % 256 &&& 15 ||| 64).testBit 6 = true := by
    rw [Nat.testBit_or]
    have : Nat.testBit 64 6 = true := by decide
    simp [this]
  rw [hb] at hbit
  simp at hbit

open Models Services in
/-- C4: for every input, `QuantumService.EncryptImage` and
`QuantumService.DecryptImage` return a nil error and a job with a fresh
(non-nil) id whose status is `queued`, whose progress is 0, whose type is
`encrypt` (respectively `decrypt`) and whose output URL, key URL and error
message are empty; the encrypt job carries the given purity, the decrypt job
an empty purity level. -/
theorem C4_service_creates_queued_job (s : QuantumService) (imageData keyData : List Nat)
    (purity : String) (rnd : Nat → Nat) (now1 now2 : Time) :
    (∃ job, s.EncryptImage imageData purity rnd now1 now2 = (some job, none) ∧
      job.ID = uuid.New rnd ∧ job.ID ≠ uuid.Nil ∧
      job.Status = JobStatusQueued ∧ job.Progress = 0 ∧ job.Type_ = JobTypeEncrypt ∧
      job.OutputFileURL = "" ∧ job.KeyFileURL = "" ∧ job.ErrorMessage = "" ∧
      job.PurityLevel = purity) ∧
    (∃ job, s.DecryptImage imageData keyData rnd now1 now2 = (some job, none) ∧
      job.ID = uuid.New rnd ∧ job.ID ≠ uuid.Nil ∧
      job.Status = JobStatusQueued ∧ job.Progress = 0 ∧ job.Type_ = JobTypeDecrypt ∧
      job.OutputFileURL = "" ∧ job.KeyFileURL = "" ∧ job.ErrorMessage = "" ∧
      job.PurityLevel = "") := by
  refine ⟨⟨_, rfl, rfl, uuid_New_ne_Nil rnd, rfl, rfl, rfl, rfl, rfl, rfl, rfl⟩,
    ⟨_, rfl, rfl, uuid_New_ne_Nil rnd, rfl, rfl, rfl, rfl, rfl, rfl, rfl⟩⟩

open Models Services in
/-- Counterexample to C5 as stated: the job returned by `EncryptImage` is
`queued`, the edge `queued → processing` is legal, yet `UpdateJobProgress`
for that job and target status returns the error `not implemented`. -/
theorem C5_legal_edge_not_applied :
    ∃ job, (NewQuantumService.EncryptImage [] "fast" (fun _ => 0) 0 0).1 = some job ∧
      job.Status = JobStatusQueued ∧
      specLegalEdge job.Status JobStatusProcessing = true ∧
      (NewQuantumService.UpdateJobProgress job.ID 0 JobStatusProcessing).2
        = some "not implemented" ∧
      (NewQuantumService.UpdateJobProgress job.ID 0 JobStatusProcessing).2 ≠ none :=
  ⟨_, rfl, rfl, by decide, rfl, by simp [QuantumService.UpdateJobProgress]⟩

open Models Services in
/-- C5 (amended): `QuantumService.UpdateJobProgress` never succeeds.  For
every job id, progress and target status, whether the edge from a source
status is legal or not, it returns the error `not implemented` and leaves the
service state unchanged, so no transition is ever applied. -/
theorem C5_update_never_applies (s : QuantumService) (jobID : uuid.UUID) (progress : Int)
    (src dst : JobStatus) :
    (s.UpdateJobProgress jobID progress dst).2 = some "not implemented" ∧
    (s.UpdateJobProgress jobID progress dst).1 = s ∧
    (specLegalEdge src dst = true → (s.UpdateJobProgress jobID progress dst).2 ≠ none) ∧
    (specLegalEdge src dst = false → (s.UpdateJobProgress jobID progress dst).1 = s) := by
  refine ⟨rfl, rfl, ?_, fun _ => rfl⟩
  intro _
  simp [QuantumService.UpdateJobProgress]

/-- Counterexample to C6 as stated: no job was ever submitted, yet the status
request for the id `never-submitted` is answered 200 with a job view whose
status is `queued`, not 404. -/
theorem C6_unknown_job_gets_view :
    (getJobStatusHandler (statusCtx "never-submitted")).status = some 200 ∧
    (getJobStatusHandler (statusCtx "never-submitted")).status ≠ some 404 ∧
    (getJobStatusHandler (statusCtx "never-submitted")).field "status"
      = some (.str "queued") ∧
    ((Handlers.NewEncryptionHandler Services.NewQuantumService).GetJobStatus
      (statusCtx "never-submitted")).status = some 200 := by
  refine ⟨rfl, ?_, ?_, rfl⟩
  · simp [getJobStatusHandler, Run.status]
  · simp [getJobStatusHandler, Run.field, FiberMap.get]

/-- C6 (amended): for every job id, submitted or not, `getJobStatusHandler`
and `EncryptionHandler.GetJobStatus` answer 200 with the placeholder view
made of the requested id, the status `queued` and the message
`Job tracking coming soon!`, never 404; `QuantumService.GetJobStatus` returns
no job and the error `not implemented` for every id. -/
theorem C6_status_is_placeholder (c : Ctx) (h : Handlers.EncryptionHandler)
    (s : Services.QuantumService) (jobID : uuid.UUID) :
    getJobStatusHandler c = ⟨some ⟨200, [("job_id", .str (c.Params "job_id")),
      ("status", .str "queued"), ("message", .str "Job tracking coming soon!")]⟩, []⟩ ∧
    h.GetJobStatus c = getJobStatusHandler c ∧
    (getJobStatusHandler c).status ≠ some 404 ∧
    (h.GetJobStatus c).status ≠ some 404 ∧
    s.GetJobStatus jobID = (none, some "not implemented") := by
  refine ⟨rfl, rfl, ?_, ?_, rfl⟩
  · simp [getJobStatusHandler, Run.status]
  · simp [Handlers.EncryptionHandler.GetJobStatus, Run.status]

/-- Engine failure in `encryptHandler`: the answer is an immediate 500 that
carries the engine output. -/
theorem encryptHandler_engineFailure (c : Ctx) (w : World) (f : FileHeader)
    (hf : c.FormFile "image" = some f) (hs : ¬ f.Size > 52428800)
    (hp : validPurity (c.FormValue "purity" "balanced"))
    (hmk : w.MkdirAll (jobTempDir w) = true)
    (hsave : w.SaveFile f (encryptInputPath w f) = true)
    (hfail : (w.CombinedOutput (encryptArgs (encryptInputPath w f) (encryptOutputPath w)
      (c.FormValue "purity" "balanced"))).2 = false) :
    (encryptHandler c w).response = some ⟨500, [("error", .str "Encryption Failed"),
      ("message", .str (w.CombinedOutput (encryptArgs (encryptInputPath w f)
        (encryptOutputPath w) (c.FormValue "purity" "balanced"))).1)]⟩ := by
  unfold encryptHandler
  rw [hf]
  have hs2 : ¬ f.Size > 50 * 1024 * 1024 := by omega
  have hp2 : ¬ ((c.FormValue "purity" "balanced" != "maximum" &&
      c.FormValue "purity" "balanced" != "balanced" &&
      c.FormValue "purity" "balanced" != "fast") = true) :=
    fun h => (purity_check_iff _).1 h hp
  simp only []
  rw [if_neg hs2, if_neg hp2]
  simp only [jobTempDir, encryptInputPath, encryptOutputPath] at hmk hsave hfail ⊢
  simp [hmk, hsave, hfail]

/-- Engine failure in `decryptHandler`: the answer is an immediate 500 that
carries the engine output. -/
theorem decryptHandler_engineFailure (c : Ctx) (w : World) (ef kf : FileHeader)
    (hef : c.FormFile "encrypted_image" = some ef) (hkf : c.FormFile "key_file" = some kf)
    (hmk : w.MkdirAll (jobTempDir w) = true)
    (hsave1 : w.SaveFile ef (filepath.Join [jobTempDir w, "encrypted.png"]) = true)
    (hsave2 : w.SaveFile kf (filepath.Join [jobTempDir w, "keys.npz"]) = true)
    (hfail : (w.CombinedOutput (decryptCommand w)).2 = false) :
    (decryptHandler c w).response = some ⟨500, [("error", .str "Decryption Failed"),
      ("message", .str (w.CombinedOutput (decryptCommand w)).1)]⟩ := by
  unfold decryptHandler
  rw [hef]
  simp only []
  rw [hkf]
  simp only [jobTempDir, decryptCommand] at hmk hsave1 hsave2 hfail ⊢
  simp [hmk, hsave1, hsave2, hfail]

/-- Counterexample to C7 as stated: a valid 10 MiB encrypt submission with
`purity=fast` whose engine run fails is answered at once with HTTP 500 and
the engine output, and the response carries no job id. -/
theorem C7_engine_failure_is_immediate_error :
    (encryptHandler (sampleCtx "cat.png" 10485760 (some "fast")) (sampleWorld false)).response
      = some ⟨500, [("error", .str "Encryption Failed"),
          ("message", .str "Traceback: boom")]⟩ ∧
    (encryptHandler (sampleCtx "cat.png" 10485760 (some "fast")) (sampleWorld false)).status
      = some 500 ∧
    (encryptHandler (sampleCtx "cat.png" 10485760 (some "fast")) (sampleWorld false)).field
      "job_id" = none := by
  have h := encryptHandler_engineFailure (sampleCtx "cat.png" 10485760 (some "fast"))
    (sampleWorld false) ⟨"cat.png", 10485760⟩ (by simp [sampleCtx, Ctx.FormFile])
    (by norm_num) (by simp [validPurity, sampleCtx, Ctx.FormValue, Ctx.rawFormValue]) rfl rfl rfl
  have hout : ((sampleWorld false).CombinedOutput (encryptArgs
      (encryptInputPath (sampleWorld false) ⟨"cat.png", 10485760⟩)
      (encryptOutputPath (sampleWorld false))
      ((sampleCtx "cat.png" 10485760 (some "fast")).FormValue "purity" "balanced"))).1
      = "Traceback: boom" := rfl
  rw [hout] at h
  refine ⟨h, ?_, ?_⟩
  · simp [Run.status, h]
  · simp [Run.field, h, FiberMap.get]

/-- C7 (amended): for every valid encrypt or decrypt submission (uploads
present, size and purity accepted, directory and files written) whose engine
run fails, the handler answers at once with HTTP 500, error
`Encryption Failed` (respectively `Decryption Failed`) and the engine's
combined output as message; the response carries no job id. -/
theorem C7_engine_failure_answers_500 (c : Ctx) (w : World) :
    (∀ f : FileHeader, c.FormFile "image" = some f → ¬ f.Size > 52428800 →
      validPurity (c.FormValue "purity" "balanced") →
      w.MkdirAll (jobTempDir w) = true →
      w.SaveFile f (encryptInputPath w f) = true →
      (w.CombinedOutput (encryptArgs (encryptInputPath w f) (encryptOutputPath w)
        (c.FormValue "purity" "balanced"))).2 = false →
      (encryptHandler c w).status = some 500 ∧
      (encryptHandler c w).field "error" = some (.str "Encryption Failed") ∧
      (encryptHandler c w).field "message" = some (.str (w.CombinedOutput (encryptArgs
        (encryptInputPath w f) (encryptOutputPath w) (c.FormValue "purity" "balanced"))).1) ∧
      (encryptHandler c w).field "job_id" = none) ∧
    (∀ ef kf : FileHeader, c.FormFile "encrypted_image" = some ef →
      c.FormFile "key_file" = some kf →
      w.MkdirAll (jobTempDir w) = true →
      w.SaveFile ef (filepath.Join [jobTempDir w, "encrypted.png"]) = true →
      w.SaveFile kf (filepath.Join [jobTempDir w, "keys.npz"]) = true →
      (w.CombinedOutput (decryptCommand w)).2 = false →
      (decryptHandler c w).status = some 500 ∧
      (decryptHandler c w).field "error" = some (.str "Decryption Failed") ∧
      (decryptHandler c w).field "message"
        = some (.str (w.CombinedOutput (decryptCommand w)).1) ∧
      (decryptHandler c w).field "job_id" = none) := by
  constructor
  · intro f hf hs hp hmk hsave hfail
    have h := encryptHandler_engineFailure c w f hf hs hp hmk hsave hfail
    simp [Run.status, Run.field, h, FiberMap.get]
  · intro ef kf hef hkf hmk hs1 hs2 hfail
    have h := decryptHandler_engineFailure c w ef kf hef hkf hmk hs1 hs2 hfail
    simp [Run.status, Run.field, h, FiberMap.get]

/-- Witness for C7: the sample decrypt submission with a failing engine. -/
theorem C7_engine_failure_answers_500_witness :
    (decryptHandler sampleDecryptCtx (sampleWorld false)).status = some 500 ∧
    (decryptHandler sampleDecryptCtx (sampleWorld false)).field "job_id" = none :=
  have h := (C7_engine_failure_answers_500 sampleDecryptCtx (sampleWorld false)).2
    ⟨"encrypted.png", 1024⟩ ⟨"keys.npz", 512⟩ (by simp [sampleDecryptCtx, Ctx.FormFile])
    (by simp [sampleDecryptCtx, Ctx.FormFile]) rfl rfl rfl rfl
  ⟨h.1, h.2.2.2⟩

open Models Services in
/-- Counterexample to C8 as stated: the purity `bogus` is none of the three
levels, yet `QuantumService.EncryptImage` returns a nil error and a queued job
that carries `bogus` as its purity level. -/
theorem C8_service_accepts_bad_purity :
    ¬ validPurity "bogus" ∧
    ∃ job, NewQuantumService.EncryptImage [] "bogus" (fun _ => 0) 0 0 = (some job, none) ∧
      job.Status = JobStatusQueued ∧ job.PurityLevel = "bogus" :=
  ⟨by decide, _, rfl, rfl, rfl⟩

open Models Services in
/-- C8 (amended): for every purity string that is not one of `fast`,
`balanced`, `maximum`, `QuantumService.EncryptImage` does not fail: it
returns a nil error and a queued job carrying that string unchanged as its
purity level (purity is validated by the HTTP handlers only). -/
theorem C8_service_does_not_validate (s : QuantumService) (imageData : List Nat)
    (purity : String) (rnd : Nat → Nat) (now1 now2 : Time) (_hbad : ¬ validPurity purity) :
    (s.EncryptImage imageData purity rnd now1 now2).2 = none ∧
    ∃ job, (s.EncryptImage imageData purity rnd now1 now2).1 = some job ∧
      job.Status = JobStatusQueued ∧ job.PurityLevel = purity :=
  ⟨rfl, _, rfl, rfl, rfl⟩

open Models Services in
/-- Witness for C8: the purity `turbo`. -/
theorem C8_service_does_not_validate_witness :
    ¬ validPurity "turbo" ∧
    (NewQuantumService.EncryptImage [1, 2, 3] "turbo" (fun i => i) 5 6).2 = none :=
  ⟨by decide, (C8_service_does_not_validate NewQuantumService [1, 2, 3] "turbo" (fun i => i) 5 6
    (by decide)).1⟩

open Models in
/-- C10: for every job, `BeforeCreate` returns a nil error, leaves a job whose
id is not the nil UUID unchanged, assigns the freshly generated id exactly
when the id is nil, and changes no field other than the id; applying the hook
a second time gives the same job as applying it once. -/
theorem C10_before_create (j : Job) (rnd rnd2 : Nat → Nat) :
    (j.BeforeCreate rnd).2 = none ∧
    (j.ID ≠ uuid.Nil → (j.BeforeCreate rnd).1 = j) ∧
    (j.ID = uuid.Nil → (j.BeforeCreate rnd).1.ID = uuid.New rnd) ∧
    ((j.BeforeCreate rnd).1.ID ≠ j.ID → j.ID = uuid.Nil) ∧
    (j.BeforeCreate rnd).1 = { j with ID := (j.BeforeCreate rnd).1.ID } ∧
    ((j.BeforeCreate rnd).1.BeforeCreate rnd2).1 = (j.BeforeCreate rnd).1 ∧
    ((j.BeforeCreate rnd).1.BeforeCreate rnd2).2 = none := by
  by_cases h : j.ID = uuid.Nil
  · have hne := uuid_New_ne_Nil rnd
    simp [Job.BeforeCreate, h, hne]
  · simp [Job.BeforeCreate, h]

namespace filepath

/-- Splitting a path never yields the empty list of elements. -/
theorem splitSep_ne_nil (s : List Char) : splitSep s ≠ [] := by
  cases s with
  | nil => simp [splitSep]
  | cons c cs =>
    unfold splitSep
    split_ifs
    · simp
    · split <;> simp

/-- Splitting after a separator: the elements of both sides, in order. -/
theorem splitSep_append_sep (a b : List Char) :
    splitSep (a ++ '/' :: b) = splitSep a ++ splitSep b := by
  induction a with
  | nil => simp [splitSep]
  | cons c cs ih =>
    by_cases hc : c = '/'
    · simp [splitSep, hc, ih]
    · cases hsp : splitSep cs with
      | nil => exact absurd hsp (splitSep_ne_nil cs)
      | cons w ws =>
        rw [List.cons_append, splitSep, if_neg hc, ih, hsp, splitSep, if_neg hc, hsp]
        rfl

/-- A path element without separator is its own single element. -/
theorem splitSep_of_no_sep (e : List Char) (h : '/' ∉ e) : splitSep e = [e] := by
  induction e with
  | nil => rfl
  | cons c cs ih =>
    have hc : c ≠ '/' := fun hc => h (by simp [hc])
    have hcs : '/' ∉ cs := fun hcs => h (by simp [hcs])
    simp [splitSep, hc, ih hcs]

/-- Joining elements of which `e` is the last gives a path that ends in `e`. -/
theorem joinSep_append_singleton (xs : List (List Char)) (e : List Char) :
    ∃ p, joinSep (xs ++ [e]) = p ++ e := by
  induction xs with
  | nil => exact ⟨[], rfl⟩
  | cons x xs ih =>
    obtain ⟨p, hp⟩ := ih
    refine ⟨x ++ '/' :: p, ?_⟩
    cases xs with
    | nil =>
      simp only [List.nil_append, joinSep] at hp
      simp [joinSep]
      have : ([] : List Char) ++ e = p ++ e := by simpa using hp
      simpa using this
    | cons y ys =>
      simp only [List.cons_append] at hp ⊢
      simp [joinSep, hp]

/-- Cleaning a path whose last element `e` is a real element (not empty, `.`
or `..`) gives a path that ends in `e`. -/
theorem cleanChars_ends (s : List Char) (comps : List (List Char)) (e : List Char)
    (hsplit : splitSep s = comps ++ [e]) (h0 : e ≠ []) (h1 : e ≠ ['.'])
    (h2 : e ≠ ['.', '.']) : ∃ p, cleanChars s = p ++ e := by
  have hs : s ≠ [] := by
    intro hs
    rw [hs] at hsplit
    cases comps with
    | nil => simp [splitSep] at hsplit; exact h0 hsplit
    | cons c cs => simp [splitSep] at hsplit
  unfold cleanChars
  have hstep : ∀ (r : Bool) st, cleanStep r st e = e :: st := by
    intro r st
    simp [cleanStep, h0, h1, h2]
  rw [if_neg hs]
  simp only [hsplit, List.foldl_append, List.foldl_cons, List.foldl_nil, hstep,
    List.reverse_cons]
  obtain ⟨p, hp⟩ := joinSep_append_singleton
    (List.foldl (cleanStep (decide (s.head? = some '/'))) [] comps).reverse e
  rw [hp]
  by_cases hr : s.head? = some '/'
  · exact ⟨'/' :: p, by simp [hr]⟩
  · have hne : p ++ e ≠ [] := by simp [h0]
    exact ⟨p, by simp [hr, hne]⟩

/-- Joining a directory with a real file name gives a path that ends in the
file name. -/
theorem Join_pair_ends (d e : String) (hsep : '/' ∉ e.data) (h0 : e.data ≠ [])
    (h1 : e.data ≠ ['.']) (h2 : e.data ≠ ['.', '.']) : ∃ p : String, Join [d, e] = p ++ e := by
  have hmk : ∀ (s : List Char) (comps : List (List Char)),
      splitSep s = comps ++ [e.data] → ∃ p : String, Clean (String.mk s) = p ++ e := by
    intro s comps hsplit
    obtain ⟨p, hp⟩ := cleanChars_ends s comps e.data hsplit h0 h1 h2
    refine ⟨String.mk p, ?_⟩
    apply String.ext
    simp [Clean, hp]
  have he : e ≠ "" := by
    intro he
    apply h0
    rw [he]
  by_cases hd : d = ""
  · simp only [Join, hd, if_true, if_neg he, List.map, joinSep]
    exact hmk e.data [] (by simpa using splitSep_of_no_sep e.data hsep)
  · simp only [Join, if_neg hd, List.map, joinSep]
    exact hmk _ (splitSep d.data) (by
      rw [splitSep_append_sep, splitSep_of_no_sep e.data hsep])

end filepath

/-- Slicing the last four bytes off a string that ends in `.png` is in bounds
and gives the part before `.png`. -/
theorem goSliceTo_png (a : String) :
    goSliceTo (a ++ ".png") (goLen (a ++ ".png") - 4) = some a := by
  have hnat4 : (a ++ ".png").utf8ByteSize = String.utf8Len a.data + 4 := by
    show String.utf8Len (a ++ ".png").data = _
    rw [String.data_append, String.utf8Len_append]
    rfl
  have hlen : goLen (a ++ ".png") = (String.utf8Len a.data : Int) + 4 := by
    unfold goLen
    rw [hnat4]
    push_cast
    rfl
  have hex := String.extract_of_valid [] a.data ".png".data
  simp only [List.nil_append, String.utf8Len_nil, Nat.zero_add] at hex
  unfold goSliceTo
  rw [hlen]
  have hcond : (0 : Int) ≤ (String.utf8Len a.data : Int) + 4 - 4 ∧
      (String.utf8Len a.data : Int) + 4 - 4 ≤ (String.utf8Len a.data : Int) + 4 := by
    constructor <;> omega
  rw [if_pos hcond]
  have hnat : ((String.utf8Len a.data : Int) + 4 - 4).toNat = String.utf8Len a.data := by
    omega
  rw [hnat]
  have hstr : a ++ ".png" = ⟨a.data ++ ".png".data⟩ := by
    apply String.ext
    simp
  rw [hstr]
  exact congrArg some hex

/-- The output path of `encryptHandler` ends in `encrypted.png`. -/
theorem encryptOutputPath_stem (w : World) :
    ∃ stem : String, encryptOutputPath w = stem ++ ".png" := by
  obtain ⟨p, hp⟩ := filepath.Join_pair_ends (jobTempDir w) "encrypted.png"
    (by decide) (by decide) (by decide) (by decide)
  refine ⟨p ++ "encrypted", ?_⟩
  rw [encryptOutputPath, hp, String.append_assoc]
  rfl

/-- Directory creation failure in `encryptHandler`: status 500. -/
theorem encryptHandler_mkdirFails (c : Ctx) (w : World) (f : FileHeader)
    (hf : c.FormFile "image" = some f) (hs : ¬ f.Size > 52428800)
    (hp : validPurity (c.FormValue "purity" "balanced"))
    (hmk : w.MkdirAll (jobTempDir w) = false) :
    (encryptHandler c w).status = some 500 := by
  unfold encryptHandler
  rw [hf]
  have hs2 : ¬ f.Size > 50 * 1024 * 1024 := by omega
  have hp2 : ¬ ((c.FormValue "purity" "balanced" != "maximum" &&
      c.FormValue "purity" "balanced" != "balanced" &&
      c.FormValue "purity" "balanced" != "fast") = true) :=
    fun h => (purity_check_iff _).1 h hp
  simp only []
  rw [if_neg hs2, if_neg hp2]
  simp only [jobTempDir] at hmk ⊢
  simp [hmk, Run.status]

/-- Upload save failure in `encryptHandler`: status 500. -/
theorem encryptHandler_saveFails (c : Ctx) (w : World) (f : FileHeader)
    (hf : c.FormFile "image" = some f) (hs : ¬ f.Size > 52428800)
    (hp : validPurity (c.FormValue "purity" "balanced"))
    (hmk : w.MkdirAll (jobTempDir w) = true)
    (hsave : w.SaveFile f (encryptInputPath w f) = false) :
    (encryptHandler c w).status = some 500 := by
  unfold encryptHandler
  rw [hf]
  have hs2 : ¬ f.Size > 50 * 1024 * 1024 := by omega
  have hp2 : ¬ ((c.FormValue "purity" "balanced" != "maximum" &&
      c.FormValue "purity" "balanced" != "balanced" &&
      c.FormValue "purity" "balanced" != "fast") = true) :=
    fun h => (purity_check_iff _).1 h hp
  simp only []
  rw [if_neg hs2, if_neg hp2]
  simp only [jobTempDir, encryptInputPath] at hmk hsave ⊢
  simp [hmk, hsave, Run.status]

/-- Success in `encryptHandler`: the full response, with the key path built
from the part `stem` of the output path before `.png`. -/
theorem encryptHandler_success (c : Ctx) (w : World) (f : FileHeader) (stem : String)
    (hstem : encryptOutputPath w = stem ++ ".png")
    (hf : c.FormFile "image" = some f) (hs : ¬ f.Size > 52428800)
    (hp : validPurity (c.FormValue "purity" "balanced"))
    (hmk : w.MkdirAll (jobTempDir w) = true)
    (hsave : w.SaveFile f (encryptInputPath w f) = true)
    (hok : (w.CombinedOutput (encryptArgs (encryptInputPath w f) (encryptOutputPath w)
      (c.FormValue "purity" "balanced"))).2 = true) :
    (encryptHandler c w).response = some ⟨200, [("success", .bool true),
      ("job_id", .str w.newUUID), ("message", .str "Encryption complete!"),
      ("output_path", .str (stem ++ ".png")), ("key_path", .str (stem ++ "_keys.npz")),
      ("purity", .str (c.FormValue "purity" "balanced"))]⟩ := by
  unfold encryptHandler
  rw [hf]
  have hs2 : ¬ f.Size > 50 * 1024 * 1024 := by omega
  have hp2 : ¬ ((c.FormValue "purity" "balanced" != "maximum" &&
      c.FormValue "purity" "balanced" != "balanced" &&
      c.FormValue "purity" "balanced" != "fast") = true) :=
    fun h => (purity_check_iff _).1 h hp
  simp only []
  rw [if_neg hs2, if_neg hp2]
  simp only [jobTempDir, encryptInputPath, encryptOutputPath] at hmk hsave hok hstem ⊢
  rw [hstem] at hok
  simp only [hmk, hsave, hstem, hok, goSliceTo_png, Bool.not_true, Bool.false_eq_true,
    if_false]

/-- Every run of `encryptHandler` ends in 400, 413 or 500 unless all the
success conditions hold. -/
theorem encryptHandler_cases (c : Ctx) (w : World) :
    (encryptHandler c w).status = some 400 ∨ (encryptHandler c w).status = some 413 ∨
    (encryptHandler c w).status = some 500 ∨ encryptSucceeds c w := by
  cases hf : c.FormFile "image" with
  | none =>
    left
    rw [encryptHandler_missing c w hf]
    rfl
  | some f =>
    by_cases hs : f.Size > 52428800
    · right; left
      rw [encryptHandler_tooLarge c w f hf hs]
      rfl
    · by_cases hp : validPurity (c.FormValue "purity" "balanced")
      · right; right
        cases hmk : w.MkdirAll (jobTempDir w) with
        | false => exact Or.inl (encryptHandler_mkdirFails c w f hf hs hp hmk)
        | true =>
          cases hsave : w.SaveFile f (encryptInputPath w f) with
          | false => exact Or.inl (encryptHandler_saveFails c w f hf hs hp hmk hsave)
          | true =>
            cases hok : (w.CombinedOutput (encryptArgs (encryptInputPath w f)
                (encryptOutputPath w) (c.FormValue "purity" "balanced"))).2 with
            | false =>
              left
              have h := encryptHandler_engineFailure c w f hf hs hp hmk hsave hok
              simp [Run.status, h]
            | true => exact Or.inr ⟨f, hf, hs, hp, hmk, hsave, hok⟩
      · left
        rw [encryptHandler_badPurity c w f hf hs hp]
        rfl

/-- C9: `encryptHandler` reports success (status 200) exactly when the upload
is present and of acceptable size, the purity is valid, the job directory and
the upload are written and the engine succeeds.  The response then carries a
non-empty `output_path` ending in `.png` and a non-empty `key_path` that is
the output path with the trailing `.png` replaced by `_keys.npz`.  The slice
`outputPath[:len(outputPath)-4]` is in bounds for every environment, and the
handler never panics. -/
theorem C9_success_locators (c : Ctx) (w : World) :
    ((encryptHandler c w).status = some 200 ↔ encryptSucceeds c w) ∧
    ((encryptHandler c w).status = some 200 →
      ∃ stem : String, encryptOutputPath w = stem ++ ".png" ∧
        (encryptHandler c w).field "output_path" = some (.str (stem ++ ".png")) ∧
        (encryptHandler c w).field "key_path" = some (.str (stem ++ "_keys.npz")) ∧
        stem ++ ".png" ≠ "" ∧ stem ++ "_keys.npz" ≠ "") ∧
    (4 ≤ goLen (encryptOutputPath w) ∧
      ∃ stem : String, encryptOutputPath w = stem ++ ".png" ∧
        goSliceTo (encryptOutputPath w) (goLen (encryptOutputPath w) - 4) = some stem) ∧
    (encryptHandler c w).response ≠ none := by
  obtain ⟨stem, hstem⟩ := encryptOutputPath_stem w
  have hsucc : encryptSucceeds c w →
      (encryptHandler c w).response = some ⟨200, [("success", .bool true),
        ("job_id", .str w.newUUID), ("message", .str "Encryption complete!"),
        ("output_path", .str (stem ++ ".png")), ("key_path", .str (stem ++ "_keys.npz")),
        ("purity", .str (c.FormValue "purity" "balanced"))]⟩ := by
    rintro ⟨f, hf, hs, hp, hmk, hsave, hok⟩
    exact encryptHandler_success c w f stem hstem hf hs hp hmk hsave hok
  have hfrom : (encryptHandler c w).status = some 200 → encryptSucceeds c w := by
    intro h200
    rcases encryptHandler_cases c w with h | h | h | h
    · rw [h] at h200; simp at h200
    · rw [h] at h200; simp at h200
    · rw [h] at h200; simp at h200
    · exact h
  have hne : ∀ t : String, stem ++ t = "" → t = "" := by
    intro t ht
    have hd := congrArg String.data ht
    rw [String.data_append] at hd
    have := (List.append_eq_nil.1 hd).2
    exact String.ext this
  have hlen : 4 ≤ goLen (stem ++ ".png") := by
    have hnat : (stem ++ ".png").utf8ByteSize = String.utf8Len stem.data + 4 := by
      show String.utf8Len (stem ++ ".png").data = _
      rw [String.data_append, String.utf8Len_append]
      rfl
    unfold goLen
    rw [hnat]
    push_cast
    omega
  refine ⟨⟨hfrom, fun h => ?_⟩, fun h200 => ⟨stem, hstem, ?_, ?_, ?_, ?_⟩,
    ⟨?_, stem, hstem, ?_⟩, ?_⟩
  · simp [Run.status, hsucc h]
  · simp [Run.field, hsucc (hfrom h200), FiberMap.get]
  · simp [Run.field, hsucc (hfrom h200), FiberMap.get]
  · intro h
    exact absurd (hne _ h) (by decide)
  · intro h
    exact absurd (hne _ h) (by decide)
  · rw [hstem]
    exact hlen
  · rw [hstem]
    exact goSliceTo_png stem
  · rcases encryptHandler_cases c w with h | h | h | h
    · intro hnone; simp [Run.status, hnone] at h
    · intro hnone; simp [Run.status, hnone] at h
    · intro hnone; simp [Run.status, hnone] at h
    · rw [hsucc h]; simp

/-- Witness for C9: a 10 MiB upload with `purity=fast` in an environment where
every step succeeds is answered 200 with both locators. -/
theorem C9_success_locators_witness :
    encryptSucceeds (sampleCtx "cat.png" 10485760 (some "fast")) (sampleWorld true) ∧
    (encryptHandler (sampleCtx "cat.png" 10485760 (some "fast")) (sampleWorld true)).status
      = some 200 :=
  have hs : encryptSucceeds (sampleCtx "cat.png" 10485760 (some "fast")) (sampleWorld true) :=
    ⟨⟨"cat.png", 10485760⟩, by simp [sampleCtx, Ctx.FormFile], by norm_num,
      by simp [validPurity, sampleCtx, Ctx.FormValue, Ctx.rawFormValue], rfl, rfl, rfl⟩
  ⟨hs, (C9_success_locators (sampleCtx "cat.png" 10485760 (some "fast"))
    (sampleWorld true)).1.2 hs⟩

/-- The sample success run evaluated: the paths the handler reports. -/
theorem sample_success_paths :
    encryptOutputPath (sampleWorld true)
      = "/tmp/quantum-jobs/123e4567-e89b-42d3-a456-426614174000/encrypted.png" ∧
    encryptInputPath (sampleWorld true) ⟨"cat.png", 10485760⟩
      = "/tmp/quantum-jobs/123e4567-e89b-42d3-a456-426614174000/input.png" ∧
    goSliceTo (encryptOutputPath (sampleWorld true))
        (goLen (encryptOutputPath (sampleWorld true)) - 4)
      = some "/tmp/quantum-jobs/123e4567-e89b-42d3-a456-426614174000/encrypted" := by
  refine ⟨by decide, by decide, by decide⟩

/-- The path model evaluated on sample inputs of `filepath.Clean`,
`filepath.Join` and `filepath.Ext`. -/
theorem filepath_samples :
    filepath.Clean "a//b/./c/.." = "a/b" ∧
    filepath.Clean "/../a/b/../../../c" = "/c" ∧
    filepath.Clean "a/../../b" = "../b" ∧
    filepath.Clean "" = "." ∧
    filepath.Clean "///" = "/" ∧
    filepath.Join ["", "", ""] = "" ∧
    filepath.Join ["a", "", "b/"] = "a/b" ∧
    filepath.Join ["..", ".."] = "../.." ∧
    filepath.Ext "photo.tar.gz" = ".gz" ∧
    filepath.Ext "dir.d/photo" = "" := by
  refine ⟨by decide, by decide, by decide, by decide, by decide, by decide, by decide,
    by decide, by decide, by decide⟩

namespace strings

/-- Splitting never yields the empty list of parts. -/
theorem splitOn_ne_nil (sep : Char) (s : List Char) : splitOn sep s ≠ [] := by
  cases s with
  | nil => simp [splitOn]
  | cons c cs =>
    unfold splitOn
    split_ifs
    · simp
    · split <;> simp

/-- Splitting after a separator: the parts of both sides, in order. -/
theorem splitOn_append_sep (sep : Char) (a b : List Char) :
    splitOn sep (a ++ sep :: b) = splitOn sep a ++ splitOn sep b := by
  induction a with
  | nil => simp [splitOn]
  | cons c cs ih =>
    by_cases hc : c = sep
    · simp [splitOn, hc, ih]
    · cases hsp : splitOn sep cs with
      | nil => exact absurd hsp (splitOn_ne_nil sep cs)
      | cons w ws =>
        rw [List.cons_append, splitOn, if_neg hc, ih, hsp, splitOn, if_neg hc, hsp]
        rfl

/-- A list without separator is its own single part. -/
theorem splitOn_of_not_mem (sep : Char) (e : List Char) (h : sep ∉ e) :
    splitOn sep e = [e] := by
  induction e with
  | nil => rfl
  | cons c cs ih =>
    have hc : c ≠ sep := fun hc => h (by simp [hc])
    have hcs : sep ∉ cs := fun hcs => h (by simp [hcs])
    simp [splitOn, hc, ih hcs]

/-- A list that splits into one part is that part and has no separator. -/
theorem splitOn_single (sep : Char) (s q : List Char) (h : splitOn sep s = [q]) :
    s = q ∧ sep ∉ q := by
  induction s generalizing q with
  | nil =>
    simp only [splitOn, List.cons.injEq, and_true] at h
    subst h
    simp
  | cons c cs ih =>
    by_cases hc : c = sep
    · rw [splitOn, if_pos hc] at h
      simp only [List.cons.injEq] at h
      exact absurd h.2 (splitOn_ne_nil sep cs)
    · rw [splitOn, if_neg hc] at h
      cases hsp : splitOn sep cs with
      | nil => exact absurd hsp (splitOn_ne_nil sep cs)
      | cons w ws =>
        rw [hsp] at h
        simp only [List.cons.injEq] at h
        obtain ⟨hq, hws⟩ := h
        subst hq
        subst hws
        obtain ⟨h1, h2⟩ := ih w hsp
        subst h1
        refine ⟨rfl, ?_⟩
        simp only [List.mem_cons, not_or]
        exact ⟨fun hsc => hc hsc.symm, h2⟩

/-- A list that splits into two parts is the first part, the separator and
the second part, and neither part has a separator. -/
theorem splitOn_pair (sep : Char) (s p q : List Char) (h : splitOn sep s = [p, q]) :
    s = p ++ sep :: q ∧ sep ∉ p ∧ sep ∉ q := by
  induction s generalizing p with
  | nil => simp [splitOn] at h
  | cons c cs ih =>
    by_cases hc : c = sep
    · rw [splitOn, if_pos hc] at h
      simp only [List.cons.injEq] at h
      obtain ⟨hp, hq⟩ := h
      subst hp
      obtain ⟨h1, h2⟩ := splitOn_single sep cs q hq
      subst h1
      subst hc
      simp [h2]
    · rw [splitOn, if_neg hc] at h
      cases hsp : splitOn sep cs with
      | nil => exact absurd hsp (splitOn_ne_nil sep cs)
      | cons w ws =>
        rw [hsp] at h
        simp only [List.cons.injEq] at h
        obtain ⟨hp, hws⟩ := h
        subst hp
        subst hws
        obtain ⟨h1, h2, h3⟩ := ih w hsp
        subst h1
        refine ⟨rfl, ?_, h3⟩
        simp only [List.mem_cons, not_or]
        exact ⟨fun hsc => hc hsc.symm, h2⟩

end strings

namespace Middleware

/-- The header splits at spaces into exactly `Bearer` and `token` precisely
when it is `Bearer`, one space, and the space-free `token`. -/
theorem Split_bearer_iff (header token : String) :
    strings.Split header ' ' = ["Bearer", token] ↔ bearerFormat header token := by
  unfold strings.Split bearerFormat
  constructor
  · intro h
    have hlen : (strings.splitOn ' ' header.data).length = 2 := by
      have := congrArg List.length h
      simpa using this
    match hsp : strings.splitOn ' ' header.data, hlen with
    | [p, q], _ =>
      rw [hsp] at h
      simp only [List.map, List.cons.injEq, and_true] at h
      obtain ⟨hp, hq⟩ := h
      obtain ⟨h1, _, h3⟩ := strings.splitOn_pair ' ' header.data p q hsp
      have hq2 : token.data = q := by rw [← hq]
      have hp2 : "Bearer".data = p := by rw [← hp]
      constructor
      · apply String.ext
        rw [h1, String.data_append, ← hp2, ← hq2]
        rfl
      · rw [hq2]
        exact h3
  · rintro ⟨hh, hns⟩
    have hd : header.data = "Bearer".data ++ ' ' :: token.data := by
      rw [hh, String.data_append]
      rfl
    rw [hd, strings.splitOn_append_sep, strings.splitOn_of_not_mem ' ' "Bearer".data (by decide),
      strings.splitOn_of_not_mem ' ' token.data hns]
    rfl

/-- The token of a header in bearer format is determined by the header. -/
theorem bearerFormat_unique (header t u : String) (ht : bearerFormat header t)
    (hu : bearerFormat header u) : t = u := by
  have h := ht.1.symm.trans hu.1
  have hd := congrArg String.data h
  rw [String.data_append, String.data_append] at hd
  exact String.ext (List.append_cancel_left hd)

end Middleware

namespace Middleware

/-- A header in bearer format: the middleware hands exactly its token to the
JWT validation and then answers by the validation outcome. -/
theorem JWTMiddleware_bearer (c : HeaderCtx) (jwtParse : String → ParseResult) (t : String)
    (hfmt : bearerFormat (c.Get "Authorization") t) :
    JWTMiddleware c jwtParse =
      if (jwtParse t).err || !(jwtParse t).Valid then
        ⟨some (unauthorized "Invalid or expired token"), [.validate t]⟩
      else
        match (jwtParse t).claims with
        | none => ⟨some (unauthorized "Invalid token claims"), [.validate t]⟩
        | some claims =>
          ⟨none, [.validate t, .locals "user_id" claims.UserID,
            .locals "email" claims.Email, .next]⟩ := by
  have hsp := (Split_bearer_iff _ _).2 hfmt
  have hne : c.Get "Authorization" ≠ "" := by
    intro h0
    have hd := congrArg String.data hfmt.1
    rw [h0, String.data_append] at hd
    exact absurd hd (by simp)
  unfold JWTMiddleware
  simp only [hne, if_false, hsp]
  rfl

/-- A header not in bearer format: the middleware answers 401 without any
event. -/
theorem JWTMiddleware_reject (c : HeaderCtx) (jwtParse : String → ParseResult)
    (hfmt : ¬ ∃ t, bearerFormat (c.Get "Authorization") t) :
    ∃ message, JWTMiddleware c jwtParse = ⟨some (unauthorized message), []⟩ := by
  unfold JWTMiddleware
  by_cases h0 : c.Get "Authorization" = ""
  · exact ⟨"Missing authorization header", by simp only [h0, if_true]⟩
  · simp only [h0, if_false]
    split
    · next scheme tokenString hsp =>
      by_cases hb : scheme = "Bearer"
      · subst hb
        exact absurd ⟨tokenString, (Split_bearer_iff _ _).1 hsp⟩ hfmt
      · exact ⟨"Invalid authorization format", by simp [hb]⟩
    · exact ⟨"Invalid authorization format", rfl⟩

end Middleware

open Middleware in
/-- C11: for every `Authorization` header value, `JWTMiddleware` hands a token
to the JWT validation exactly when the header is `Bearer`, one space and that
token, the token containing no space, which is the case exactly when the
header splits at spaces into the two parts `Bearer` and the token.  Every
other header is answered 401 with no validation and no call of the next
handler: so are the empty header, another scheme, a lowercase `bearer` and
headers with extra spaces.  The next handler is only ever called after a
validation, and every response the middleware writes itself is a 401. -/
theorem C11_bearer_header (c : HeaderCtx) (jwtParse : String → ParseResult) :
    (∀ t, AuthEvent.validate t ∈ (JWTMiddleware c jwtParse).events ↔
      bearerFormat (c.Get "Authorization") t) ∧
    (∀ t, bearerFormat (c.Get "Authorization") t ↔
      strings.Split (c.Get "Authorization") ' ' = ["Bearer", t]) ∧
    ((¬ ∃ t, bearerFormat (c.Get "Authorization") t) →
      (JWTMiddleware c jwtParse).response.map Response.status = some 401 ∧
      (JWTMiddleware c jwtParse).events = []) ∧
    (AuthEvent.next ∈ (JWTMiddleware c jwtParse).events →
      ∃ t, bearerFormat (c.Get "Authorization") t ∧
        AuthEvent.validate t ∈ (JWTMiddleware c jwtParse).events) ∧
    (∀ r, (JWTMiddleware c jwtParse).response = some r → r.status = 401) ∧
    (∀ header ∈ ["", "Basic abc", "bearer abc", "Bearer  abc", "Bearer abc def",
        " Bearer abc", "Bearer abc ", "Bearer"],
      (JWTMiddleware (authCtx header) jwtParse).response.map Response.status = some 401 ∧
      (JWTMiddleware (authCtx header) jwtParse).events = []) ∧
    (JWTMiddleware (authCtx "Bearer abc") acceptAll).events =
      [.validate "abc", .locals "user_id" "u1", .locals "email" "u1@example.org", .next] := by
  have hbearer : ∀ t, bearerFormat (c.Get "Authorization") t →
      AuthEvent.validate t ∈ (JWTMiddleware c jwtParse).events ∧
      (∀ r, (JWTMiddleware c jwtParse).response = some r → r.status = 401) := by
    intro t hfmt
    rw [JWTMiddleware_bearer c jwtParse t hfmt]
    split_ifs
    · constructor
      · simp
      · intro r hr
        simp only [Option.some.injEq] at hr
        rw [← hr]
        rfl
    · split
      · constructor
        · simp
        · intro r hr
          simp only [Option.some.injEq] at hr
          rw [← hr]
          rfl
      · constructor
        · simp
        · intro r hr
          simp at hr
  have hreject : (¬ ∃ t, bearerFormat (c.Get "Authorization") t) →
      (JWTMiddleware c jwtParse).response.map Response.status = some 401 ∧
      (JWTMiddleware c jwtParse).events = [] := by
    intro hfmt
    obtain ⟨message, hm⟩ := JWTMiddleware_reject c jwtParse hfmt
    rw [hm]
    exact ⟨rfl, rfl⟩
  have hvalidated : ∀ t, AuthEvent.validate t ∈ (JWTMiddleware c jwtParse).events →
      bearerFormat (c.Get "Authorization") t := by
    intro t hmem
    by_cases hfmt : ∃ u, bearerFormat (c.Get "Authorization") u
    · obtain ⟨u, hu⟩ := hfmt
      rw [JWTMiddleware_bearer c jwtParse u hu] at hmem
      have htu : t = u := by
        split_ifs at hmem
        · simpa using hmem
        · split at hmem <;> simpa using hmem
      rw [htu]
      exact hu
    · rw [(hreject hfmt).2] at hmem
      simp at hmem
  refine ⟨fun t => ⟨hvalidated t, fun h => (hbearer t h).1⟩,
    fun t => (Split_bearer_iff _ t).symm, hreject, ?_, ?_, ?_, ?_⟩
  · intro hnext
    by_cases hfmt : ∃ u, bearerFormat (c.Get "Authorization") u
    · obtain ⟨u, hu⟩ := hfmt
      exact ⟨u, hu, (hbearer u hu).1⟩
    · rw [(hreject hfmt).2] at hnext
      simp at hnext
  · intro r hr
    by_cases hfmt : ∃ u, bearerFormat (c.Get "Authorization") u
    · obtain ⟨u, hu⟩ := hfmt
      exact (hbearer u hu).2 r hr
    · have h401 := (hreject hfmt).1
      rw [hr] at h401
      simpa using h401
  · intro header hmem
    simp only [List.mem_cons, List.mem_singleton, List.not_mem_nil, or_false] at hmem
    rcases hmem with h | h | h | h | h | h | h | h <;> subst h <;> exact ⟨rfl, rfl⟩
  · rfl

/-- When fasthttp finds no value, every source is absent or empty. -/
theorem rawFormValue_eq_empty (c : Ctx) (key : String) (h : c.rawFormValue key = "") :
    (c.query key).getD "" = "" ∧ (c.postArgs key).getD "" = "" ∧ (c.form key).getD "" = "" := by
  unfold Ctx.rawFormValue at h
  by_cases hq : (c.query key).getD "" = ""
  · by_cases ha : (c.postArgs key).getD "" = ""
    · simp only [hq, ha, ne_eq, not_true_eq_false, if_false] at h
      exact ⟨hq, ha, h⟩
    · simp only [hq, ha, ne_eq, not_true_eq_false, not_false_eq_true, if_false, if_true] at h
  · simp only [hq, ne_eq, not_false_eq_true, if_true] at h

/-- When no source holds the key, fasthttp finds no value. -/
theorem rawFormValue_of_absent (c : Ctx) (key : String) (hq : c.query key = none)
    (ha : c.postArgs key = none) (hf : c.form key = none) : c.rawFormValue key = "" := by
  simp [Ctx.rawFormValue, hq, ha, hf]

/-- With the job directory created and the upload saved, the effects of an
accepted submission are the id, the directory, the saved upload and one
engine run whose command line carries the effective purity after `--purity`. -/
theorem encryptHandler_engine_effects (c : Ctx) (w : World) (f : FileHeader)
    (hf : c.FormFile "image" = some f) (hs : ¬ f.Size > 52428800)
    (hp : validPurity (c.FormValue "purity" "balanced"))
    (hmk : w.MkdirAll (jobTempDir w) = true)
    (hsave : w.SaveFile f (encryptInputPath w f) = true) :
    (encryptHandler c w).effects =
      [Effect.uuidNew w.newUUID, Effect.mkdirAll (jobTempDir w),
        Effect.saveFile f (encryptInputPath w f),
        Effect.exec "../.." ["python", "-m", "quantum_image_shield.cli", "encrypt",
          encryptInputPath w f, encryptOutputPath w, "--purity",
          c.FormValue "purity" "balanced"]] := by
  have hdir : filepath.Join ["..", ".."] = "../.." := by decide
  unfold encryptHandler
  rw [hf]
  have hs2 : ¬ f.Size > 50 * 1024 * 1024 := by omega
  have hp2 : ¬ ((c.FormValue "purity" "balanced" != "maximum" &&
      c.FormValue "purity" "balanced" != "balanced" &&
      c.FormValue "purity" "balanced" != "fast") = true) :=
    fun h => (purity_check_iff _).1 h hp
  simp only []
  rw [if_neg hs2, if_neg hp2]
  simp only [jobTempDir, encryptInputPath, encryptOutputPath] at hmk hsave ⊢
  simp only [hmk, hsave, hdir, Bool.not_true, Bool.false_eq_true, if_false, encryptArgs]
  split_ifs
  · rfl
  · split <;> rfl

/-- C2: for an upload of acceptable size, the effective purity of
`encryptHandler` is the value `c.FormValue("purity", "balanced")` finds: the
first non-empty one of the query argument, the POST argument and the form
field, and `balanced` when none is supplied (or only empty ones).  The handler
uses it: when no value is supplied it behaves exactly as with the form field
`purity=balanced`, it runs the engine with `--purity balanced` and reports
`purity: balanced`; in general the engine command line and the success
response carry the effective purity.  It answers 400 exactly when the
effective purity is none of `fast`, `balanced`, `maximum`;
`EncryptionHandler.EncryptImage` has the same 400 condition. -/
theorem C2_purity_validation (c : Ctx) (w : World) (h : Handlers.EncryptionHandler)
    (file : FileHeader) (hfile : c.FormFile "image" = some file)
    (hsize : ¬ file.Size > 52428800) :
    ((c.query "purity" = none ∧ c.postArgs "purity" = none ∧ c.form "purity" = none) →
      c.rawFormValue "purity" = "") ∧
    (c.rawFormValue "purity" = "" → c.FormValue "purity" "balanced" = "balanced") ∧
    (c.rawFormValue "purity" ≠ "" →
      c.FormValue "purity" "balanced" = c.rawFormValue "purity") ∧
    (∀ v, v ≠ "" → c.query "purity" = some v → c.FormValue "purity" "balanced" = v) ∧
    (c.rawFormValue "purity" = "" →
      encryptHandler c w = encryptHandler (c.withPurity "balanced") w ∧
      (encryptHandler c w).status ≠ some 400 ∧
      (w.MkdirAll (jobTempDir w) = true → w.SaveFile file (encryptInputPath w file) = true →
        (encryptHandler c w).effects =
          [Effect.uuidNew w.newUUID, Effect.mkdirAll (jobTempDir w),
            Effect.saveFile file (encryptInputPath w file),
            Effect.exec "../.." ["python", "-m", "quantum_image_shield.cli", "encrypt",
              encryptInputPath w file, encryptOutputPath w, "--purity", "balanced"]] ∧
        ((w.CombinedOutput ["python", "-m", "quantum_image_shield.cli", "encrypt",
            encryptInputPath w file, encryptOutputPath w, "--purity", "balanced"]).2 = true →
          (encryptHandler c w).status = some 200 ∧
          (encryptHandler c w).field "purity" = some (.str "balanced")))) ∧
    (validPurity (c.FormValue "purity" "balanced") →
      w.MkdirAll (jobTempDir w) = true → w.SaveFile file (encryptInputPath w file) = true →
        (encryptHandler c w).effects =
          [Effect.uuidNew w.newUUID, Effect.mkdirAll (jobTempDir w),
            Effect.saveFile file (encryptInputPath w file),
            Effect.exec "../.." ["python", "-m", "quantum_image_shield.cli", "encrypt",
              encryptInputPath w file, encryptOutputPath w, "--purity",
              c.FormValue "purity" "balanced"]] ∧
        ((w.CombinedOutput ["python", "-m", "quantum_image_shield.cli", "encrypt",
            encryptInputPath w file, encryptOutputPath w, "--purity",
            c.FormValue "purity" "balanced"]).2 = true →
          (encryptHandler c w).status = some 200 ∧
          (encryptHandler c w).field "purity"
            = some (.str (c.FormValue "purity" "balanced")))) ∧
    ((encryptHandler c w).status = some 400 ↔
      ¬ (c.FormValue "purity" "balanced" = "fast" ∨
         c.FormValue "purity" "balanced" = "balanced" ∨
         c.FormValue "purity" "balanced" = "maximum")) ∧
    ((h.EncryptImage c).status = some 400 ↔
      ¬ (c.FormValue "purity" "balanced" = "fast" ∨
         c.FormValue "purity" "balanced" = "balanced" ∨
         c.FormValue "purity" "balanced" = "maximum")) := by
  have hdefault : c.rawFormValue "purity" = "" → c.FormValue "purity" "balanced" = "balanced" := by
    intro hraw
    simp [Ctx.FormValue, hraw]
  have hgen : validPurity (c.FormValue "purity" "balanced") →
      w.MkdirAll (jobTempDir w) = true → w.SaveFile file (encryptInputPath w file) = true →
        (encryptHandler c w).effects =
          [Effect.uuidNew w.newUUID, Effect.mkdirAll (jobTempDir w),
            Effect.saveFile file (encryptInputPath w file),
            Effect.exec "../.." ["python", "-m", "quantum_image_shield.cli", "encrypt",
              encryptInputPath w file, encryptOutputPath w, "--purity",
              c.FormValue "purity" "balanced"]] ∧
        ((w.CombinedOutput ["python", "-m", "quantum_image_shield.cli", "encrypt",
            encryptInputPath w file, encryptOutputPath w, "--purity",
            c.FormValue "purity" "balanced"]).2 = true →
          (encryptHandler c w).status = some 200 ∧
          (encryptHandler c w).field "purity"
            = some (.str (c.FormValue "purity" "balanced"))) := by
    intro hp hmk hsave
    refine ⟨encryptHandler_engine_effects c w file hfile hsize hp hmk hsave, fun hok => ?_⟩
    obtain ⟨stem, hstem⟩ := encryptOutputPath_stem w
    have hresp := encryptHandler_success c w file stem hstem hfile hsize hp hmk hsave hok
    simp [Run.status, Run.field, hresp, FiberMap.get]
  refine ⟨fun hab => rawFormValue_of_absent c "purity" hab.1 hab.2.1 hab.2.2, hdefault, ?_, ?_,
    ?_, hgen, ?_, ?_⟩
  · intro hraw
    simp [Ctx.FormValue, hraw]
  · intro v hv hq
    simp [Ctx.FormValue, Ctx.rawFormValue, hq, hv]
  · intro hraw
    have hv := hdefault hraw
    have hvalid : validPurity (c.FormValue "purity" "balanced") := Or.inr (Or.inl hv)
    obtain ⟨hq, ha, _⟩ := rawFormValue_eq_empty c "purity" hraw
    refine ⟨encryptHandler_congr c _ w rfl ?_, ?_, ?_⟩
    · rw [hv]
      simp [Ctx.FormValue, Ctx.rawFormValue, Ctx.withPurity, hq, ha]
    · exact (encryptHandler_accepted c w file hfile hsize hvalid).1
    · intro hmk hsave
      have h3 := hgen hvalid hmk hsave
      rw [hv] at h3
      exact h3
  · by_cases hp : (c.FormValue "purity" "balanced" = "fast" ∨
        c.FormValue "purity" "balanced" = "balanced" ∨
        c.FormValue "purity" "balanced" = "maximum")
    · have hacc := encryptHandler_accepted c w file hfile hsize hp
      exact ⟨fun h400 => absurd h400 hacc.1, fun hnp => absurd hp hnp⟩
    · rw [encryptHandler_badPurity c w file hfile hsize hp]
      simp [Run.status, hp]
  · unfold Handlers.EncryptionHandler.EncryptImage
    rw [hfile]
    have hs2 : ¬ file.Size > 50 * 1024 * 1024 := by omega
    simp only []
    rw [if_neg hs2]
    by_cases hp : (c.FormValue "purity" "balanced" = "fast" ∨
        c.FormValue "purity" "balanced" = "balanced" ∨
        c.FormValue "purity" "balanced" = "maximum")
    · have hp2 : ¬ ((c.FormValue "purity" "balanced" != "maximum" &&
          c.FormValue "purity" "balanced" != "balanced" &&
          c.FormValue "purity" "balanced" != "fast") = true) :=
        fun hb => (purity_check_iff _).1 hb hp
      rw [if_neg hp2]
      simp [Run.status, hp]
    · rw [if_pos ((purity_check_iff _).2 hp)]
      simp [Run.status, hp]

/-- Witness for C2: a 10 MiB upload without any purity value, in an
environment where every step succeeds, runs the engine with
`--purity balanced` and is answered 200 with `purity: balanced`. -/
theorem C2_purity_validation_witness :
    (sampleCtx "cat.png" 10485760 none).FormFile "image" = some ⟨"cat.png", 10485760⟩ ∧
    (encryptHandler (sampleCtx "cat.png" 10485760 none) (sampleWorld true)).effects =
      [Effect.uuidNew "123e4567-e89b-42d3-a456-426614174000",
        Effect.mkdirAll (jobTempDir (sampleWorld true)),
        Effect.saveFile ⟨"cat.png", 10485760⟩
          (encryptInputPath (sampleWorld true) ⟨"cat.png", 10485760⟩),
        Effect.exec "../.." ["python", "-m", "quantum_image_shield.cli", "encrypt",
          encryptInputPath (sampleWorld true) ⟨"cat.png", 10485760⟩,
          encryptOutputPath (sampleWorld true), "--purity", "balanced"]] ∧
    (encryptHandler (sampleCtx "cat.png" 10485760 none) (sampleWorld true)).status = some 200 ∧
    (encryptHandler (sampleCtx "cat.png" 10485760 none) (sampleWorld true)).field "purity"
      = some (.str "balanced") :=
  have hf : (sampleCtx "cat.png" 10485760 none).FormFile "image"
      = some ⟨"cat.png", 10485760⟩ := by
    simp [sampleCtx, Ctx.FormFile]
  have h := C2_purity_validation (sampleCtx "cat.png" 10485760 none) (sampleWorld true)
    (Handlers.NewEncryptionHandler Services.NewQuantumService) ⟨"cat.png", 10485760⟩ hf
    (by norm_num)
  have hraw : (sampleCtx "cat.png" 10485760 none).rawFormValue "purity" = "" :=
    h.1 ⟨rfl, rfl, by simp [sampleCtx]⟩
  have hrun := (h.2.2.2.2.1 hraw).2.2 rfl rfl
  ⟨hf, hrun.1, (hrun.2 rfl).1, (hrun.2 rfl).2⟩

/-- The lookup order of `c.FormValue` on sample requests: a query argument
`purity=turbo` without form field is answered 400, and a query argument
`purity=fast` overrides the form field `turbo`. -/
theorem query_purity_samples :
    (encryptHandler (sampleQueryCtx (some "turbo") none) (sampleWorld true)).status
      = some 400 ∧
    (sampleQueryCtx (some "fast") (some "turbo")).FormValue "purity" "balanced" = "fast" ∧
    (encryptHandler (sampleQueryCtx (some "fast") (some "turbo")) (sampleWorld true)).status
      = some 200 ∧
    (sampleQueryCtx (some "") (some "maximum")).FormValue "purity" "balanced" = "maximum" := by
  have hf : ∀ q p, (sampleQueryCtx q p).FormFile "image" = some ⟨"cat.png", 10485760⟩ := by
    intro q p
    simp [sampleQueryCtx, Ctx.FormFile]
  have hturbo : (sampleQueryCtx (some "turbo") none).FormValue "purity" "balanced" = "turbo" := by
    simp [sampleQueryCtx, Ctx.FormValue, Ctx.rawFormValue]
  have hfast : (sampleQueryCtx (some "fast") (some "turbo")).FormValue "purity" "balanced"
      = "fast" := by
    simp [sampleQueryCtx, Ctx.FormValue, Ctx.rawFormValue]
  refine ⟨?_, hfast, ?_, ?_⟩
  · rw [encryptHandler_badPurity _ _ _ (hf _ _) (by norm_num) (by rw [hturbo]; decide)]
    rfl
  · obtain ⟨stem, hstem⟩ := encryptOutputPath_stem (sampleWorld true)
    have hresp := encryptHandler_success (sampleQueryCtx (some "fast") (some "turbo"))
      (sampleWorld true) _ stem hstem (hf _ _) (by norm_num) (Or.inl hfast) rfl rfl rfl
    simp [Run.status, hresp]
  · simp [sampleQueryCtx, Ctx.FormValue, Ctx.rawFormValue]
